import Mathlib

/-!
Verification of the image-resizer core: a shallow embedding of
`src/lib.rs` / `src/cli.rs` (dimension resolution, format/path
reconciliation, overwrite gate, save pipeline) together with proofs of
the specified properties.

The dimension resolver uses `f32` arithmetic in the source; it is
modelled here exactly for the nonnegative fragment that this program
reaches (every float in the resolver is a `u32` cast, or a quotient or
product of such casts): IEEE 754 binary32 round-to-nearest-even with a
24-bit significand, normal range, plus infinity/NaN propagation and the
saturating `as u32` cast of Rust.  Finite values are kept as exact
dyadic rationals `m * 2 ^ e` with a normalized significand, so that the
whole model evaluates inside the kernel.
-/

deriving instance DecidableEq for Except

/-- Floor of the base-2 logarithm of a natural number, fuel-based so
that it reduces in the kernel; `fuel ≥ n` is enough fuel. -/
def log2fuel : ℕ → ℕ → ℕ
  | 0, _ => 0
  | fuel + 1, n => if n < 2 then 0 else log2fuel fuel (n / 2) + 1

/-- Floor of the base-2 logarithm of a positive natural number. -/
def natLog2 (n : ℕ) : ℕ := log2fuel n n

/-- A finite nonnegative binary32 value `m * 2 ^ e`; normalized so that
`m = 0` or `2 ^ 23 ≤ m < 2 ^ 24` (the IEEE significand of a normal
number). -/
structure Dy where
  m : ℕ
  e : ℤ
deriving DecidableEq

/-- Decides `2 ^ d ≤ a / b` for positive naturals `a, b` and an integer
exponent `d`, entirely in `ℕ`. -/
def gePow2 (a b : ℕ) (d : ℤ) : Bool :=
  if 0 ≤ d then decide (b * 2 ^ d.toNat ≤ a) else decide (b ≤ a * 2 ^ (-d).toNat)

/-- For positive `a, b`, the exponent `E` with `2 ^ E ≤ a / b < 2 ^ (E + 1)`. -/
def ratLog2 (a b : ℕ) : ℤ :=
  let d : ℤ := (natLog2 a : ℤ) - (natLog2 b : ℤ)
  if gePow2 a b d then d else d - 1

/-- Round the ratio `a / b` of positive naturals to the nearest integer,
ties to even, given as numerator `n` and denominator `d` after scaling. -/
def roundRatioHalfEven (n d : ℕ) : ℕ :=
  let q := n / d
  let r := n % d
  if 2 * r < d then q
  else if d < 2 * r then q + 1
  else if q % 2 = 0 then q else q + 1

/-- Assemble a rounded significand into a normalized dyadic at scale
`2 ^ s`; rounding may carry to `2 ^ 24`, which renormalizes. -/
def normRound (num den : ℕ) (s : ℤ) : Dy :=
  let m0 := roundRatioHalfEven num den
  if m0 = 2 ^ 24 then ⟨2 ^ 23, s + 1⟩ else ⟨m0, s⟩

/-- Round `a / b` (for `b ≠ 0`) to the nearest binary32 value:
round-to-nearest-even at 24 significand bits.  The scaled significand
`(a / b) / 2 ^ (E - 23)` lies in `[2 ^ 23, 2 ^ 24)`. -/
def divRound (a b : ℕ) : Dy :=
  if a = 0 then ⟨0, 0⟩
  else
    let s := ratLog2 a b - 23
    if 0 ≤ s then normRound a (b * 2 ^ s.toNat) s
    else normRound (a * 2 ^ (-s).toNat) b s

/-- A binary32 value as it occurs in this program: finite nonnegative,
positive infinity, or NaN. -/
inductive F32 where
  | finite (v : Dy)
  | inf
  | nan
deriving DecidableEq

/-- Pack a rounded dyadic into an `F32`, overflowing to infinity past
the binary32 range (a normalized value overflows exactly when its
exponent is at least `105`, since `2 ^ 23 * 2 ^ 105 = 2 ^ 128`). -/
def F32.ofDy (x : Dy) : F32 :=
  if x.m = 0 then .finite ⟨0, 0⟩
  else if 105 ≤ x.e then .inf
  else .finite x

/-- The `as f32` cast of a Rust `u32` value. -/
def F32.ofNat (n : ℕ) : F32 := F32.ofDy (divRound n 1)

/-- IEEE division of two binary32 values (nonnegative fragment):
division by zero gives infinity, `0 / 0` gives NaN. -/
def F32.div : F32 → F32 → F32
  | .finite x, .finite y =>
    if y.m = 0 then (if x.m = 0 then .nan else .inf)
    else
      let r := divRound x.m y.m
      if r.m = 0 then .finite ⟨0, 0⟩ else F32.ofDy ⟨r.m, r.e + x.e - y.e⟩
  | .finite _, .inf => .finite ⟨0, 0⟩
  | .inf, .finite _ => .inf
  | .inf, .inf => .nan
  | .nan, _ => .nan
  | _, .nan => .nan

/-- IEEE multiplication of two binary32 values (nonnegative fragment):
`0 * ∞` gives NaN. -/
def F32.mul : F32 → F32 → F32
  | .finite x, .finite y =>
    let r := divRound (x.m * y.m) 1
    if r.m = 0 then .finite ⟨0, 0⟩ else F32.ofDy ⟨r.m, r.e + x.e + y.e⟩
  | .finite x, .inf => if x.m = 0 then .nan else .inf
  | .inf, .finite x => if x.m = 0 then .nan else .inf
  | .inf, .inf => .inf
  | .nan, _ => .nan
  | _, .nan => .nan

/-- Rust `as u32` cast of an `f32`: truncation toward zero, saturating
at the bounds, with NaN mapped to `0`. -/
def F32.toU32 : F32 → ℕ
  | .finite x =>
    let v := if 0 ≤ x.e then x.m * 2 ^ x.e.toNat else x.m / 2 ^ (-x.e).toNat
    min v (2 ^ 32 - 1)
  | .inf => 2 ^ 32 - 1
  | .nan => 0

/-- Embedding of `determine_new_dimensions` (src/lib.rs).  The source
image is given by its dimensions; `width` and `height` are the optional
requested dimensions. -/
def determine_new_dimensions (src_width src_height : ℕ)
    (width height : Option ℕ) : Except String (ℕ × ℕ) :=
  match width, height with
  | some w, some h => .ok (w, h)
  | some w, none =>
    let aspect := (F32.ofNat src_height).div (F32.ofNat src_width)
    .ok (w, ((F32.ofNat w).mul aspect).toU32)
  | none, some h =>
    let aspect := (F32.ofNat src_width).div (F32.ofNat src_height)
    .ok (((F32.ofNat h).mul aspect).toU32, h)
  | none, none =>
    .error "Error: At least one of width or height must be specified"

/-- Outcome of constructing the resize container. -/
inductive ResizeOutcome where
  | errMsg (e : String)
  | panics
  | okDims (w h : ℕ)
deriving DecidableEq

/-- Embedding of `ImageContainer::new` (src/lib.rs): after dimension
resolution it unwraps `NonZeroU32::new` on the source and destination
dimensions, which panics when any of them is zero. -/
def image_container_new (src_width src_height : ℕ)
    (width height : Option ℕ) : ResizeOutcome :=
  match determine_new_dimensions src_width src_height width height with
  | .error e => .errMsg e
  | .ok (nw, nh) =>
    if src_width = 0 ∨ src_height = 0 ∨ nw = 0 ∨ nh = 0 then .panics
    else .okDims nw nh

/-- The spec formula for a width-only request: the requested width cast
to f32, multiplied by the floating-point aspect ratio
`source_height / source_width`, then cast to u32 (truncation toward
zero, not rounding to nearest). -/
def spec_height_from_width (rw sw sh : ℕ) : ℕ :=
  ((F32.ofNat rw).mul ((F32.ofNat sh).div (F32.ofNat sw))).toU32

/-- The spec formula for a height-only request, symmetric to
`spec_height_from_width`. -/
def spec_width_from_height (rh sw sh : ℕ) : ℕ :=
  ((F32.ofNat rh).mul ((F32.ofNat sw).div (F32.ofNat sh))).toU32

/-!
Paths and file names.  Rust `Path` values are modelled structurally: an
absolute flag plus the list of components (normal file or directory
names; the model does not cover the special `.` and `..` components,
which the claims do not involve).  The file-name splitting rules of
`Path::extension` / `Path::file_stem` / `PathBuf::set_extension` are
reproduced exactly: the extension is the part of the final component
after its last dot, except that a name whose only dot is a leading dot
has no extension.
-/

/-- Split a character list at its LAST dot: `some (before, after)`, or
`none` when no dot occurs. -/
def lastDotSplit : List Char → Option (List Char × List Char)
  | [] => none
  | c :: rest =>
    match lastDotSplit rest with
    | some (b, a) => some (c :: b, a)
    | none => if c = '.' then some ([], rest) else none

/-- Rust file-name splitting into stem and extension: the extension is
what follows the last dot, except that a leading dot with no further
dot marks a hidden file with no extension. -/
def splitName (f : List Char) : List Char × Option (List Char) :=
  match f with
  | [] => ([], none)
  | c :: rest =>
    if c = '.' then
      match lastDotSplit rest with
      | none => (c :: rest, none)
      | some (b, a) => (c :: b, some a)
    else
      match lastDotSplit (c :: rest) with
      | none => (c :: rest, none)
      | some (b, a) => (b, some a)

/-- The stem of a file name (Rust `file_stem`). -/
def nameStem (s : String) : String := String.mk (splitName s.data).fst

/-- The extension of a file name (Rust `extension` on the file name). -/
def nameExt (s : String) : Option String := (splitName s.data).snd.map String.mk

/-- A Rust path: an absolute flag plus its components. -/
structure RustPath where
  absolute : Bool
  components : List String
deriving DecidableEq

/-- The empty relative path, `Path::new("")`. -/
def emptyPath : RustPath := ⟨false, []⟩

/-- Rust `Path::file_name`: the final component. -/
def RustPath.fileName (p : RustPath) : Option String := p.components.getLast?

/-- Rust `Path::file_stem`. -/
def RustPath.fileStem (p : RustPath) : Option String := p.fileName.map nameStem

/-- Rust `Path::extension`. -/
def RustPath.ext (p : RustPath) : Option String := p.fileName.bind nameExt

/-- Rust `Path::parent`: `none` for a bare root or the empty path. -/
def RustPath.parent (p : RustPath) : Option RustPath :=
  match p.components with
  | [] => none
  | _ => some ⟨p.absolute, p.components.dropLast⟩

/-- Rust `path.parent().unwrap_or(Path::new(""))`. -/
def RustPath.parentOr (p : RustPath) : RustPath := p.parent.getD emptyPath

/-- The file name produced by Rust `set_extension`: the stem, plus a dot
and the new extension when it is nonempty. -/
def setExtName (c : String) (e : String) : String :=
  if e = "" then nameStem c else nameStem c ++ "." ++ e

/-- Rust `Path::with_extension`: replaces the extension of the final
component (a path without a file name is returned unchanged). -/
def RustPath.withExt (p : RustPath) (e : String) : RustPath :=
  match p.components.getLast? with
  | none => p
  | some c => ⟨p.absolute, p.components.dropLast ++ [setExtName c e]⟩

/-- Rust `Path::join`: an absolute right-hand side replaces the whole
path. -/
def RustPath.join (p q : RustPath) : RustPath :=
  if q.absolute then q else ⟨p.absolute, p.components ++ q.components⟩

/-- A single-component relative path, as built by `Path::join` on a bare
file name. -/
def namePath (c : String) : RustPath := ⟨false, [c]⟩

/-- Rust `str::to_lowercase` restricted to the ASCII range that this
program compares against. -/
def rustToLowercase (s : String) : String := String.mk (s.data.map Char.toLower)

/-- Rust `str::trim` (whitespace stripping on both ends). -/
def rustTrim (s : String) : String :=
  String.mk (((s.data.dropWhile Char.isWhitespace).reverse.dropWhile
    Char.isWhitespace).reverse)

/-!
Image formats, buffers, and the format/path reconciliation engine of
`src/lib.rs`.
-/

/-- The image formats this development distinguishes: the two encodable
formats plus GIF as a representative sniffable-but-unsupported format. -/
inductive ImageFormat where
  | jpeg
  | png
  | gif
deriving DecidableEq

/-- The extension lists of the image crate (`ImageFormat::extensions_str`):
the first entry is the canonical extension. -/
def extensions_str : ImageFormat → List String
  | .jpeg => ["jpg", "jpeg"]
  | .png => ["png"]
  | .gif => ["gif"]

/-- The canonical extension of a format (`extensions_str()[0]`). -/
def canonicalExt (f : ImageFormat) : String := (extensions_str f).headD ""

/-- An in-memory RGBA image buffer: dimensions plus raw bytes. -/
structure RasterBuffer where
  width : ℕ
  height : ℕ
  data : List ℕ
deriving DecidableEq

/-- Result metadata of a successful save (`ImageInfo`, src/lib.rs). -/
structure ImageInfo where
  width : ℕ
  height : ℕ
  format : ImageFormat
  path : RustPath
deriving DecidableEq

/-- Modelled from the spec: magic-byte sniffing by the external image
crate (`image::guess_format`), using standard format signatures — the
JPEG SOI marker `FF D8 FF`, the PNG signature
`89 50 4E 47 0D 0A 1A 0A`, and the GIF signature `GIF8`; anything else
is unrecognized. -/
def guess_format (bytes : List ℕ) : Option ImageFormat :=
  if bytes.take 8 = [0x89, 0x50, 0x4E, 0x47, 0x0D, 0x0A, 0x1A, 0x0A] then some .png
  else if bytes.take 3 = [0xFF, 0xD8, 0xFF] then some .jpeg
  else if bytes.take 4 = [0x47, 0x49, 0x46, 0x38] then some .gif
  else none

/-- Modelled from the spec: extension-based detection by the external
image crate (`ImageFormat::from_path`): the path extension, lowercased,
mapped to the format it names. -/
def format_from_path (p : RustPath) : Option ImageFormat :=
  match p.ext with
  | none => none
  | some e =>
    if rustToLowercase e = "jpg" ∨ rustToLowercase e = "jpeg" then some .jpeg
    else if rustToLowercase e = "png" then some .png
    else if rustToLowercase e = "gif" then some .gif
    else none

/-- Embedding of `string_to_image_format` (src/lib.rs). -/
def string_to_image_format (format : String) : Except String ImageFormat :=
  if rustToLowercase format = "jpeg" ∨ rustToLowercase format = "jpg" then .ok .jpeg
  else if rustToLowercase format = "png" then .ok .png
  else .error ("Unsoported image format " ++ format)

/-- Embedding of `validate_new_image_format` (src/lib.rs). -/
def validate_new_image_format (format : ImageFormat) : Except String ImageFormat :=
  match format with
  | .png => .ok format
  | .jpeg => .ok format
  | _ => .error "Unsoported conversion to image format. Specify a valid format with --format."

/-- Embedding of `infer_format` (src/lib.rs): sniff the raw buffer
bytes first; only when sniffing fails fall back to the path extension;
default to JPEG (with a warning) when both fail. -/
def infer_format (image : RasterBuffer) (path : Option RustPath) : ImageFormat :=
  match guess_format image.data with
  | some format => format
  | none =>
    match path with
    | some file_path =>
      match format_from_path file_path with
      | some format => format
      | none => .jpeg
    | none => .jpeg

/-- Embedding of `determine_extension` (src/lib.rs): keep a `jpg`/`jpeg`
extension for the JPEG format, otherwise use the canonical extension of
the format. -/
def determine_extension (path : RustPath) (format : ImageFormat) : String :=
  match path.ext with
  | some e =>
    if (e = "jpg" ∨ e = "jpeg") ∧ format = ImageFormat.jpeg then e
    else canonicalExt format
  | none => canonicalExt format

/-- Embedding of `determine_save_format_and_path` (src/lib.rs). -/
def determine_save_format_and_path (image : RasterBuffer) (output_path : RustPath)
    (output_format : Option String) : Except String (ImageFormat × RustPath) :=
  match
    (match output_format with
     | some f => string_to_image_format f
     | none => validate_new_image_format (infer_format image (some output_path)))
  with
  | .error e => .error e
  | .ok save_format =>
    let new_extension := determine_extension output_path save_format
    .ok (save_format, output_path.withExt new_extension)

/-- The payload handed to the external encoder: either the RGBA buffer
unchanged, or its RGB conversion. -/
inductive SavePayload where
  | rgb (data : List ℕ)
  | rgba (data : List ℕ)
deriving DecidableEq

/-- RGBA-to-RGB conversion (`image.convert()` for `Rgb8`): drop the
alpha byte of each pixel. -/
def rgbaToRgb : List ℕ → List ℕ
  | r :: g :: b :: _ :: rest => r :: g :: b :: rgbaToRgb rest
  | [r, g, b] => [r, g, b]
  | [r, g] => [r, g]
  | [r] => [r]
  | [] => []

/-- Embedding of `save_image` (src/lib.rs) up to the external encoder
call: all validation, plus the payload that would be encoded and the
`ImageInfo` returned on success.  On every error path the function
returns before any payload is produced, so no file write is attempted. -/
def save_image (image : RasterBuffer) (output_path : RustPath)
    (save_format : ImageFormat) : Except String (ImageInfo × SavePayload) :=
  let width := image.width
  let height := image.height
  if width = 0 ∨ height = 0 then .error "Failed to save image: Empty image buffer"
  else
    match output_path.ext with
    | some extension =>
      match string_to_image_format extension with
      | .error e => .error e
      | .ok ext_format =>
        if ext_format ≠ save_format then
          .error "Output file extension is not compatible with the specified format."
        else
          let payload := match save_format with
            | .jpeg => SavePayload.rgb (rgbaToRgb image.data)
            | _ => SavePayload.rgba image.data
          .ok (⟨width, height, save_format, output_path⟩, payload)
    | none => .error "Output path has no file extension"

/-!
Output-path resolution and validation of `src/cli.rs`, and the
overwrite gate of `src/lib.rs`.  Filesystem queries (`is_dir`,
`try_exists`) and the interactive prompt are external effects, passed
in as explicit parameters.
-/

/-- Embedding of `validate_output_path` (src/cli.rs), with the
filesystem `is_dir` test passed as a parameter.  The validated path is
rebuilt as `parent.join(stem).with_extension(extension)`. -/
def validate_output_path (isDir : RustPath → Bool) (path : RustPath) :
    Except String RustPath :=
  let parent := path.parentOr
  if ¬ isDir parent = true ∧ ¬ parent = emptyPath then
    .error "The given output directory cannot be found."
  else
    let stem := path.fileStem.getD "output"
    let extension := path.ext.getD ""
    if extension = "jpeg" ∨ extension = "jpg" ∨ extension = "png" ∨ extension = ""
    then .ok ((parent.join (namePath stem)).withExt extension)
    else .error "You need to specify a valid extension, either jpeg, png or no extension."

/-- Embedding of `determine_output_path` (src/cli.rs). -/
def determine_output_path (isDir : RustPath → Bool) (input : RustPath)
    (output : Option RustPath) : Except String RustPath :=
  let parent := input.parentOr
  let stem := input.fileStem.getD "output"
  let extension := input.ext.getD "jpeg"
  match output with
  | some output_path =>
    match validate_output_path isDir output_path with
    | .error e => .error e
    | .ok validated =>
      let path_new := match validated.ext with
        | some _ => validated
        | none => validated.withExt extension
      if path_new.absolute then .ok path_new else .ok (parent.join path_new)
  | none => .ok ((parent.join (namePath (stem ++ "_resized"))).withExt extension)

/-- Outcome of the `try_exists` filesystem query in
`check_if_path_exists`. -/
inductive PathCheck where
  | found
  | missing
  | checkFailed (msg : String)
deriving DecidableEq

/-- Result of the overwrite gate: whether the operator was prompted,
and the outcome. -/
structure GateResult where
  prompted : Bool
  outcome : Except String Unit
deriving DecidableEq

/-- Embedding of `check_if_path_exists` (src/lib.rs): the `try_exists`
outcome and the operator answer are passed as parameters; the answer is
read only when the path exists, after a prompt. -/
def check_if_path_exists (check : PathCheck) (answer : String) : GateResult :=
  match check with
  | .found =>
    if ¬ rustToLowercase (rustTrim answer) = "y" then
      ⟨true, .error "already exists. Operation cancelled!"⟩
    else ⟨true, .ok ()⟩
  | .missing => ⟨false, .ok ()⟩
  | .checkFailed e => ⟨false, .error ("Error checking path: " ++ e)⟩

/-- A proper Rust file name: nonempty and not one of the special
components `.` / `..` (for which Rust `file_name()` returns `None`). -/
def goodName (c : String) : Bool :=
  (c != "") && (c != ".") && (c != "..")

/-- The path ends in a proper file name. -/
def hasGoodFileName (p : RustPath) : Bool :=
  match p.components.getLast? with
  | some c => goodName c
  | none => false

/-- The final component carries at most one extension: its stem has no
further extension (so Rust `set_extension` rebuilds it verbatim). -/
def stemSimple (p : RustPath) : Bool :=
  match p.components.getLast? with
  | some c => (splitName (nameStem c).data).snd.isNone
  | none => false

/-!
Arithmetic lemmas for the binary32 model, and claims C1 and C2.
-/

theorem le_pow_log2fuel (fuel : ℕ) :
    ∀ n, 0 < n → n ≤ fuel → 2 ^ log2fuel fuel n ≤ n := by
  induction fuel with
  | zero => intro n h1 h2; omega
  | succ fuel ih =>
    intro n h1 h2
    simp only [log2fuel]
    split
    · simpa using h1
    · rename_i hn
      push_neg at hn
      have hpos : 0 < n / 2 := Nat.div_pos hn (by norm_num)
      have hle : n / 2 ≤ fuel := by omega
      have hh := ih (n / 2) hpos hle
      calc 2 ^ (log2fuel fuel (n / 2) + 1) = 2 ^ log2fuel fuel (n / 2) * 2 := by ring
        _ ≤ n / 2 * 2 := by omega
        _ ≤ n := by omega

theorem le_pow_natLog2 (n : ℕ) (h : 0 < n) : 2 ^ natLog2 n ≤ n :=
  le_pow_log2fuel n n h le_rfl

theorem natLog2_le_of_le (n k : ℕ) (h : 0 < n) (hk : n ≤ 2 ^ k) : natLog2 n ≤ k := by
  have h1 := le_pow_natLog2 n h
  have h2 : 2 ^ natLog2 n ≤ 2 ^ k := le_trans h1 hk
  exact (Nat.pow_le_pow_iff_right (by norm_num)).mp h2

theorem roundRatioHalfEven_ge (n d : ℕ) : n / d ≤ roundRatioHalfEven n d := by
  simp only [roundRatioHalfEven]
  split_ifs <;> omega

theorem normRound_pos (num den : ℕ) (s : ℤ) (h : 0 < num / den) (hs : s ≤ 9) :
    0 < (normRound num den s).m ∧ (normRound num den s).e ≤ 10 := by
  have hm : 0 < roundRatioHalfEven num den :=
    lt_of_lt_of_le h (roundRatioHalfEven_ge num den)
  simp only [normRound]
  split_ifs with hcarry
  · exact ⟨by norm_num, show s + 1 ≤ 10 by omega⟩
  · exact ⟨hm, show s ≤ 10 by omega⟩

theorem ratLog2_one (n : ℕ) (h : 0 < n) : ratLog2 n 1 = (natLog2 n : ℤ) := by
  have h10 : natLog2 1 = 0 := rfl
  have hlow : 2 ^ natLog2 n ≤ n := le_pow_natLog2 n h
  have hge : gePow2 n 1 (natLog2 n : ℤ) = true := by
    simp only [gePow2]
    rw [if_pos (Int.natCast_nonneg _)]
    simp only [one_mul, Int.toNat_natCast, decide_eq_true_eq]
    exact hlow
  simp only [ratLog2, h10, Nat.cast_zero, sub_zero, hge, if_true]

/-- Casting a positive `u32` to f32 yields a finite positive value. -/
theorem divRound_one_pos (n : ℕ) (h1 : 0 < n) (h2 : n ≤ 2 ^ 32) :
    0 < (divRound n 1).m ∧ (divRound n 1).e ≤ 10 := by
  have hlog : natLog2 n ≤ 32 := natLog2_le_of_le n 32 h1 h2
  have hlow : 2 ^ natLog2 n ≤ n := le_pow_natLog2 n h1
  have hne : ¬ n = 0 := by omega
  simp only [divRound, hne, if_false, ratLog2_one n h1]
  set s : ℤ := (natLog2 n : ℤ) - 23 with hs
  have hs9 : s ≤ 9 := by omega
  split_ifs with h0
  · refine normRound_pos _ _ _ ?_ hs9
    have hsn : s.toNat ≤ natLog2 n := by omega
    have hdle : 2 ^ s.toNat ≤ n :=
      le_trans (Nat.pow_le_pow_right (by norm_num) hsn) hlow
    rw [one_mul]
    exact (Nat.one_le_div_iff (Nat.pos_pow_of_pos _ (by norm_num))).mpr hdle
  · refine normRound_pos _ _ _ ?_ hs9
    simp only [Nat.div_one]
    exact Nat.mul_pos h1 (Nat.pos_pow_of_pos _ (by norm_num))

theorem F32_ofNat_finite (n : ℕ) (h1 : 0 < n) (h2 : n ≤ 2 ^ 32) :
    F32.ofNat n = .finite (divRound n 1) ∧ 0 < (divRound n 1).m := by
  obtain ⟨hm, he⟩ := divRound_one_pos n h1 h2
  refine ⟨?_, hm⟩
  simp only [F32.ofNat, F32.ofDy]
  rw [if_neg (by omega), if_neg (by omega)]

/-- The resolver truncates toward zero rather than rounding to nearest:
for a 4 x 3 source and requested width 2, the float product is exactly
1.5 and the result is 1 (round-to-nearest-even would give 2). -/
theorem resolver_truncates_toward_zero :
    determine_new_dimensions 4 3 (some 2) none = .ok (2, 1) ∧
    spec_height_from_width 2 4 3 = 1 := by decide

/-- C1: with positive source dimensions and only a width requested, the
resolver returns that width together with the truncated floating-point
product `rw * (source_height / source_width)` (float aspect ratio, cast
to u32, i.e. truncation toward zero); symmetrically with only a height
requested. -/
theorem c1_aspect_ratio_truncation (sw sh rw rh : ℕ)
    (hsw : 0 < sw) (hsh : 0 < sh) (hrw : 0 < rw) (hrh : 0 < rh) :
    determine_new_dimensions sw sh (some rw) none
      = .ok (rw, spec_height_from_width rw sw sh) ∧
    determine_new_dimensions sw sh none (some rh)
      = .ok (spec_width_from_height rh sw sh, rh) :=
  ⟨rfl, rfl⟩

/-- Witness for C1 at source 4 x 3, requested width 2 / height 2. -/
theorem c1_witness :
    (0 < 4 ∧ 0 < 3 ∧ 0 < 2) ∧
    (determine_new_dimensions 4 3 (some 2) none
        = .ok (2, spec_height_from_width 2 4 3) ∧
      determine_new_dimensions 4 3 none (some 2)
        = .ok (spec_width_from_height 2 4 3, 2)) :=
  ⟨by decide, c1_aspect_ratio_truncation 4 3 2 2 (by decide) (by decide)
      (by decide) (by decide)⟩

/-- C2 fails on the code: with a zero source width and a requested
width, `determine_new_dimensions` does not return an error at all; the
division by zero reaches floating point, yields infinity, and the
saturating cast turns it into `u32::MAX`, so the call succeeds with
`Ok (5, 4294967295)` instead of an `InvalidSource` error (no such error
exists in the source), and `ImageContainer::new` then panics. -/
theorem c2_counterexample :
    determine_new_dimensions 0 1 (some 5) none = .ok (5, 4294967295) ∧
    image_container_new 0 1 (some 5) none = .panics := by decide

/-- C2 amended: `determine_new_dimensions` performs no degenerate-source
check.  With a zero source width (resp. height) and the other dimension
requested, the float division by zero produces infinity, the saturating
cast maps it to `u32::MAX = 4294967295`, and the resolver returns `Ok`;
the subsequent `NonZeroU32::new(..).unwrap()` in `ImageContainer::new`
panics instead of returning an `InvalidSource` error. -/
theorem c2_amended_zero_source (sw sh rw rh : ℕ)
    (hsw : 0 < sw) (hsw32 : sw ≤ 2 ^ 32) (hsh : 0 < sh) (hsh32 : sh ≤ 2 ^ 32)
    (hrw : 0 < rw) (hrw32 : rw ≤ 2 ^ 32) (hrh : 0 < rh) (hrh32 : rh ≤ 2 ^ 32) :
    (determine_new_dimensions 0 sh (some rw) none = .ok (rw, 2 ^ 32 - 1) ∧
      image_container_new 0 sh (some rw) none = .panics) ∧
    (determine_new_dimensions sw 0 none (some rh) = .ok (2 ^ 32 - 1, rh) ∧
      image_container_new sw 0 none (some rh) = .panics) := by
  obtain ⟨hshf, hshm⟩ := F32_ofNat_finite sh hsh hsh32
  obtain ⟨hrwf, hrwm⟩ := F32_ofNat_finite rw hrw hrw32
  obtain ⟨hswf, hswm⟩ := F32_ofNat_finite sw hsw hsw32
  obtain ⟨hrhf, hrhm⟩ := F32_ofNat_finite rh hrh hrh32
  have hz : F32.ofNat 0 = .finite ⟨0, 0⟩ := rfl
  have hwidth : determine_new_dimensions 0 sh (some rw) none
      = .ok (rw, 2 ^ 32 - 1) := by
    simp only [determine_new_dimensions, hz, hshf, hrwf, F32.div, if_true]
    rw [if_neg (by omega)]
    simp only [F32.mul]
    rw [if_neg (by omega)]
    rfl
  have hheight : determine_new_dimensions sw 0 none (some rh)
      = .ok (2 ^ 32 - 1, rh) := by
    simp only [determine_new_dimensions, hz, hswf, hrhf, F32.div, if_true]
    rw [if_neg (by omega)]
    simp only [F32.mul]
    rw [if_neg (by omega)]
    rfl
  refine ⟨⟨hwidth, ?_⟩, ⟨hheight, ?_⟩⟩
  · simp only [image_container_new, hwidth]
    rw [if_pos (Or.inl trivial)]
  · simp only [image_container_new, hheight]
    rw [if_pos (Or.inr (Or.inl trivial))]

/-- Witness for the amended C2 at source width 0, height 1, requested
width 5 (and the symmetric case). -/
theorem c2_witness :
    (0 < 1 ∧ (1 : ℕ) ≤ 2 ^ 32 ∧ 0 < 5 ∧ (5 : ℕ) ≤ 2 ^ 32) ∧
    ((determine_new_dimensions 0 1 (some 5) none = .ok (5, 2 ^ 32 - 1) ∧
        image_container_new 0 1 (some 5) none = .panics) ∧
      (determine_new_dimensions 1 0 none (some 5) = .ok (2 ^ 32 - 1, 5) ∧
        image_container_new 1 0 none (some 5) = .panics)) :=
  ⟨by decide, c2_amended_zero_source 1 1 5 5 (by decide) (by decide) (by decide)
      (by decide) (by decide) (by decide) (by decide) (by decide)⟩

/-!
Lemmas about file-name splitting.
-/

theorem lastDotSplit_eq_none (l : List Char) (h : '.' ∉ l) : lastDotSplit l = none := by
  induction l with
  | nil => rfl
  | cons c rest ih =>
    have hc : ¬ c = '.' := by
      intro hc
      exact h (by rw [hc]; exact List.mem_cons_self _ _)
    have hr : '.' ∉ rest := fun hm => h (List.mem_cons_of_mem c hm)
    simp only [lastDotSplit, ih hr, if_neg hc]

theorem lastDotSplit_append (xs e : List Char) (he : '.' ∉ e) :
    lastDotSplit (xs ++ '.' :: e) = some (xs, e) := by
  induction xs with
  | nil => simp [lastDotSplit, lastDotSplit_eq_none e he]
  | cons c rest ih => simp [lastDotSplit, ih]

theorem lastDotSplit_decomp (l : List Char) :
    ∀ b a, lastDotSplit l = some (b, a) → l = b ++ '.' :: a := by
  induction l with
  | nil => intro b a h; cases h
  | cons c rest ih =>
    intro b a h
    cases hr : lastDotSplit rest with
    | some pair =>
      obtain ⟨b', a'⟩ := pair
      simp only [lastDotSplit, hr, Option.some.injEq, Prod.mk.injEq] at h
      obtain ⟨hb, ha⟩ := h
      rw [← hb, ← ha, List.cons_append, ← ih b' a' hr]
    | none =>
      by_cases hc : c = '.'
      · simp only [lastDotSplit, hr, if_pos hc, Option.some.injEq, Prod.mk.injEq] at h
        obtain ⟨hb, ha⟩ := h
        rw [← hb, ← ha, hc]
        rfl
      · simp only [lastDotSplit, hr, if_neg hc] at h
        exact Option.noConfusion h

theorem lastDotSplit_fst_ne_nil (c : Char) (rest b a : List Char) (hc : ¬ c = '.')
    (h : lastDotSplit (c :: rest) = some (b, a)) : b ≠ [] := by
  cases hr : lastDotSplit rest with
  | some pair =>
    obtain ⟨b', a'⟩ := pair
    simp only [lastDotSplit, hr, Option.some.injEq, Prod.mk.injEq] at h
    obtain ⟨hb, _⟩ := h
    rw [← hb]
    simp
  | none =>
    simp only [lastDotSplit, hr, if_neg hc] at h
    exact Option.noConfusion h

theorem splitName_append (s e : List Char) (hs : s ≠ []) (he : '.' ∉ e) :
    splitName (s ++ '.' :: e) = (s, some e) := by
  cases s with
  | nil => exact absurd rfl hs
  | cons c rest =>
    by_cases hc : c = '.'
    · rw [List.cons_append]
      simp only [splitName, if_pos hc, lastDotSplit_append rest e he]
    · rw [List.cons_append]
      simp only [splitName, if_neg hc, ← List.cons_append,
        lastDotSplit_append (c :: rest) e he]

theorem splitName_fst_ne_nil (l : List Char) (h : l ≠ []) : (splitName l).fst ≠ [] := by
  cases l with
  | nil => exact absurd rfl h
  | cons c rest =>
    by_cases hc : c = '.'
    · cases hr : lastDotSplit rest with
      | none => simp [splitName, if_pos hc, hr]
      | some pair =>
        obtain ⟨b, a⟩ := pair
        simp [splitName, if_pos hc, hr]
    · cases hr : lastDotSplit (c :: rest) with
      | none => simp [splitName, if_neg hc, hr]
      | some pair =>
        obtain ⟨b, a⟩ := pair
        simp only [splitName, if_neg hc, hr]
        exact lastDotSplit_fst_ne_nil c rest b a hc hr

theorem splitName_snd_none_fst (l : List Char) (h : (splitName l).snd = none) :
    (splitName l).fst = l := by
  cases l with
  | nil => rfl
  | cons c rest =>
    by_cases hc : c = '.'
    · cases hr : lastDotSplit rest with
      | none => simp [splitName, if_pos hc, hr]
      | some pair =>
        obtain ⟨b, a⟩ := pair
        simp [splitName, if_pos hc, hr] at h
    · cases hr : lastDotSplit (c :: rest) with
      | none => simp [splitName, if_neg hc, hr]
      | some pair =>
        obtain ⟨b, a⟩ := pair
        simp [splitName, if_neg hc, hr] at h

theorem splitName_decomp (l : List Char) (a : List Char)
    (h : (splitName l).snd = some a) : l = (splitName l).fst ++ '.' :: a := by
  cases l with
  | nil => cases h
  | cons c rest =>
    by_cases hc : c = '.'
    · cases hr : lastDotSplit rest with
      | none => simp [splitName, if_pos hc, hr] at h
      | some pair =>
        obtain ⟨b, a'⟩ := pair
        simp only [splitName, if_pos hc, hr, Option.some.injEq] at h
        simp only [splitName, if_pos hc, hr, List.cons_append, List.cons.injEq, true_and]
        rw [← h]
        exact lastDotSplit_decomp rest b a' hr
    · cases hr : lastDotSplit (c :: rest) with
      | none => simp [splitName, if_neg hc, hr] at h
      | some pair =>
        obtain ⟨b, a'⟩ := pair
        simp only [splitName, if_neg hc, hr, Option.some.injEq] at h
        simp only [splitName, if_neg hc, hr]
        rw [← h]
        exact lastDotSplit_decomp (c :: rest) b a' hr

theorem string_data_inj (a b : String) (h : a.data = b.data) : a = b := by
  cases a
  cases b
  exact congrArg String.mk h

theorem nameStem_of_ext_none (s : String) (h : nameExt s = none) : nameStem s = s := by
  have h2 : (splitName s.data).snd = none := by
    cases hx : (splitName s.data).snd with
    | none => rfl
    | some a =>
      simp only [nameExt, hx, Option.map_some'] at h
      exact Option.noConfusion h
  simp only [nameStem]
  rw [splitName_snd_none_fst s.data h2]

theorem nameExt_setExtName (c e : String) (hc : ¬ c.data = []) (he : ¬ e = "")
    (hd : '.' ∉ e.data) : nameExt (setExtName c e) = some e := by
  have hdata : (setExtName c e).data = (nameStem c).data ++ '.' :: e.data := by
    simp only [setExtName, if_neg he]
    show ((nameStem c).data ++ ('.' :: [])) ++ e.data = _
    rw [List.append_assoc]
    rfl
  have hs : (nameStem c).data ≠ [] := splitName_fst_ne_nil c.data hc
  simp only [nameExt, hdata, splitName_append _ _ hs hd]
  rfl

theorem withExt_ext (p : RustPath) (e : String) (hp : hasGoodFileName p = true)
    (he : ¬ e = "") (hd : '.' ∉ e.data) : (p.withExt e).ext = some e := by
  unfold hasGoodFileName at hp
  cases hl : p.components.getLast? with
  | none => rw [hl] at hp; cases hp
  | some c =>
    rw [hl] at hp
    simp only [goodName, Bool.and_eq_true, bne_iff_ne] at hp
    have hc : ¬ c.data = [] := by
      intro hnil
      apply hp.1.1
      exact string_data_inj c "" hnil
    have h1 : (p.withExt e).ext = nameExt (setExtName c e) := by
      simp only [RustPath.withExt, hl, RustPath.ext, RustPath.fileName,
        List.getLast?_concat, Option.bind]
    rw [h1]
    exact nameExt_setExtName c e hc he hd

theorem setExtName_reconstruct (c e : String)
    (hext : nameExt c = some e) (he : ¬ e = "")
    (hsimple : (splitName (nameStem c).data).snd.isNone = true) :
    setExtName (nameStem c) e = c := by
  simp only [setExtName, if_neg he]
  have h1 : (splitName (nameStem c).data).snd = none := by
    cases hx : (splitName (nameStem c).data).snd with
    | none => rfl
    | some a => rw [hx] at hsimple; cases hsimple
  have h2 : nameStem (nameStem c) = nameStem c := by
    apply nameStem_of_ext_none
    simp only [nameExt, h1, Option.map_none']
  rw [h2]
  obtain ⟨a, ha, hae⟩ : ∃ a, (splitName c.data).snd = some a ∧ String.mk a = e := by
    simp only [nameExt] at hext
    cases hy : (splitName c.data).snd with
    | none => rw [hy] at hext; cases hext
    | some a =>
      rw [hy] at hext
      simp only [Option.map_some', Option.some.injEq] at hext
      exact ⟨a, rfl, hext⟩
  have hea : e.data = a := by rw [← hae]
  have hdec := splitName_decomp c.data a ha
  apply string_data_inj
  show ((nameStem c).data ++ ('.' :: [])) ++ e.data = c.data
  rw [List.append_assoc, hea]
  conv_rhs => rw [hdec]
  rfl

theorem validate_reconstruct (isDir : RustPath → Bool) (p : RustPath) (e : String)
    (hext : p.ext = some e) (he : e = "jpeg" ∨ e = "jpg" ∨ e = "png")
    (hstem : stemSimple p = true)
    (hdir : isDir p.parentOr = true ∨ p.parentOr = emptyPath) :
    validate_output_path isDir p = .ok p := by
  cases hl : p.components.getLast? with
  | none =>
    exfalso
    simp only [RustPath.ext, RustPath.fileName, hl, Option.bind] at hext
    exact Option.noConfusion hext
  | some c =>
    have hne : ¬ e = "" := by rcases he with h | h | h <;> rw [h] <;> decide
    have hcext : nameExt c = some e := by
      simp only [RustPath.ext, RustPath.fileName, hl, Option.bind] at hext
      exact hext
    have hsimple : (splitName (nameStem c).data).snd.isNone = true := by
      simp only [stemSimple, hl] at hstem
      exact hstem
    have hrec := setExtName_reconstruct c e hcext hne hsimple
    have hcomp : p.components ≠ [] := by
      intro h0
      rw [h0] at hl
      cases hl
    simp only [validate_output_path]
    rw [if_neg (by tauto)]
    have hstemD : p.fileStem.getD "output" = nameStem c := by
      simp only [RustPath.fileStem, RustPath.fileName, hl, Option.map_some',
        Option.getD_some]
    have hextD : p.ext.getD "" = e := by rw [hext]; rfl
    rw [hstemD, hextD,
      if_pos (show e = "jpeg" ∨ e = "jpg" ∨ e = "png" ∨ e = "" by tauto)]
    congr 1
    have hpar : p.parentOr = ⟨p.absolute, p.components.dropLast⟩ := by
      simp only [RustPath.parentOr, RustPath.parent]
      cases hcs : p.components with
      | nil => exact absurd hcs hcomp
      | cons x xs => rfl
    rw [hpar]
    show RustPath.withExt ⟨p.absolute, p.components.dropLast ++ [nameStem c]⟩ e = p
    simp only [RustPath.withExt, List.getLast?_concat]
    rw [List.dropLast_concat, hrec]
    rw [List.dropLast_append_getLast? c (Option.mem_def.mpr hl)]

/-- C3 fails on the code: with no explicit format, a buffer whose raw
bytes begin with the PNG signature and an output path `x.jpg` resolve
to PNG, not to the JPEG named by the extension — `infer_format` sniffs
the buffer first and consults the path extension only when sniffing
fails, the opposite of the claimed precedence. -/
theorem c3_counterexample :
    determine_save_format_and_path
        ⟨10, 10, [0x89, 0x50, 0x4E, 0x47, 0x0D, 0x0A, 0x1A, 0x0A]⟩
        ⟨false, ["x.jpg"]⟩ none
      = .ok (.png, ⟨false, ["x.png"]⟩) ∧ ImageFormat.png ≠ ImageFormat.jpeg := by
  decide

/-- C3 amended: with no explicit format, the buffer magic bytes are
sniffed FIRST and decide the format whenever they are recognized,
regardless of the path extension; the path extension is consulted only
when sniffing fails, and then a recognized `jpg`/`jpeg`/`png` extension
(case-insensitively) decides the format; when both fail the format
defaults to JPEG. -/
theorem c3_amended_sniff_precedence (buf : RasterBuffer) (p : RustPath) :
    (∀ f, guess_format buf.data = some f → infer_format buf (some p) = f) ∧
    (guess_format buf.data = none →
      ∀ e, p.ext = some e →
        ((rustToLowercase e = "jpg" ∨ rustToLowercase e = "jpeg") →
          ∃ q, determine_save_format_and_path buf p none = .ok (.jpeg, q)) ∧
        (rustToLowercase e = "png" →
          ∃ q, determine_save_format_and_path buf p none = .ok (.png, q))) ∧
    (guess_format buf.data = none → format_from_path p = none →
      infer_format buf (some p) = .jpeg) := by
  refine ⟨?_, ?_, ?_⟩
  · intro f hf
    simp only [infer_format, hf]
  · intro hs e hext
    constructor
    · intro hmap
      have hfp : format_from_path p = some .jpeg := by
        simp only [format_from_path, hext]
        rw [if_pos hmap]
      simp only [determine_save_format_and_path, infer_format, hs, hfp,
        validate_new_image_format]
      exact ⟨_, rfl⟩
    · intro hmap
      have h1 : ¬ (rustToLowercase e = "jpg" ∨ rustToLowercase e = "jpeg") := by
        simp [hmap]
      have hfp : format_from_path p = some .png := by
        simp only [format_from_path, hext]
        rw [if_neg h1, if_pos hmap]
      simp only [determine_save_format_and_path, infer_format, hs, hfp,
        validate_new_image_format]
      exact ⟨_, rfl⟩
  · intro hs hfp
    simp only [infer_format, hs, hfp]

/-- Witness for the amended C3: an all-zero buffer sniffs to nothing,
and the `x.jpg` extension then decides JPEG. -/
theorem c3_witness :
    guess_format (List.replicate 400 0) = none ∧
    RustPath.ext ⟨false, ["x.jpg"]⟩ = some "jpg" ∧
    (∃ q, determine_save_format_and_path ⟨10, 10, List.replicate 400 0⟩
      ⟨false, ["x.jpg"]⟩ none = .ok (.jpeg, q)) :=
  ⟨by decide, by decide,
    ((c3_amended_sniff_precedence ⟨10, 10, List.replicate 400 0⟩
        ⟨false, ["x.jpg"]⟩).2.1 (by decide) "jpg" (by decide)).1
      (Or.inl (by decide))⟩

/-- C4: an explicit format string alone decides the resolved format,
overriding the output path extension and the buffer bytes: `jpeg`/`jpg`
map case-insensitively to JPEG, `png` to PNG, and anything else fails
with the unsupported-format error; in particular an explicit `png`
with output path `x.jpg` resolves to PNG (for any buffer). -/
theorem c4_explicit_format_overrides (buf : RasterBuffer) (p : RustPath) (s : String) :
    ((rustToLowercase s = "jpeg" ∨ rustToLowercase s = "jpg") →
      ∃ q, determine_save_format_and_path buf p (some s) = .ok (.jpeg, q)) ∧
    (rustToLowercase s = "png" →
      ∃ q, determine_save_format_and_path buf p (some s) = .ok (.png, q)) ∧
    (¬ (rustToLowercase s = "jpeg" ∨ rustToLowercase s = "jpg" ∨
        rustToLowercase s = "png") →
      determine_save_format_and_path buf p (some s)
        = .error ("Unsoported image format " ++ s)) ∧
    determine_save_format_and_path buf ⟨false, ["x.jpg"]⟩ (some "png")
      = .ok (.png, ⟨false, ["x.png"]⟩) := by
  refine ⟨?_, ?_, ?_, ?_⟩
  · intro h
    simp only [determine_save_format_and_path, string_to_image_format, if_pos h]
    exact ⟨_, rfl⟩
  · intro h
    simp only [determine_save_format_and_path, string_to_image_format, h]
    rw [if_neg (by decide), if_pos (by decide)]
    exact ⟨_, rfl⟩
  · intro h
    push_neg at h
    obtain ⟨h1, h2, h3⟩ := h
    simp only [determine_save_format_and_path, string_to_image_format]
    rw [if_neg (by tauto), if_neg h3]
  · simp only [determine_save_format_and_path, string_to_image_format]
    rw [if_neg (by decide), if_pos (by decide)]
    rfl

/-- Witness for C4 at the explicit format `PNG` (case-insensitive). -/
theorem c4_witness :
    rustToLowercase "PNG" = "png" ∧
    (∃ q, determine_save_format_and_path ⟨10, 10, []⟩ ⟨false, ["x.jpg"]⟩
      (some "PNG") = .ok (.png, q)) :=
  ⟨by decide,
    (c4_explicit_format_overrides ⟨10, 10, []⟩ ⟨false, ["x.jpg"]⟩ "PNG").2.1
      (by decide)⟩

/-- C5: a buffer with zero width or zero height is rejected by
`save_image` with the empty-buffer error, before any encoding or file
write is attempted (in the embedding, the encoder payload is only
produced on the `Ok` path). -/
theorem c5_empty_buffer_rejected (buf : RasterBuffer) (p : RustPath)
    (f : ImageFormat) (h : buf.width = 0 ∨ buf.height = 0) :
    save_image buf p f = .error "Failed to save image: Empty image buffer" := by
  simp only [save_image, if_pos h]

/-- Witness for C5 on a 0 x 5 buffer. -/
theorem c5_witness :
    ((0 : ℕ) = 0 ∨ (5 : ℕ) = 0) ∧
    save_image ⟨0, 5, []⟩ ⟨false, ["x.jpg"]⟩ .jpeg
      = .error "Failed to save image: Empty image buffer" :=
  ⟨Or.inl rfl, c5_empty_buffer_rejected ⟨0, 5, []⟩ ⟨false, ["x.jpg"]⟩ .jpeg
    (Or.inl rfl)⟩

theorem dsfp_ok_shape (buf : RasterBuffer) (p : RustPath) (of : Option String)
    (f : ImageFormat) (q : RustPath)
    (h : determine_save_format_and_path buf p of = .ok (f, q)) :
    (f = .jpeg ∨ f = .png) ∧ q = p.withExt (determine_extension p f) := by
  unfold determine_save_format_and_path at h
  cases hres : (match of with
    | some s => string_to_image_format s
    | none => validate_new_image_format (infer_format buf (some p))) with
  | error msg =>
    rw [hres] at h
    exact Except.noConfusion h
  | ok sf =>
    rw [hres] at h
    simp only [Except.ok.injEq, Prod.mk.injEq] at h
    obtain ⟨rfl, rfl⟩ := h
    refine ⟨?_, rfl⟩
    cases of with
    | some s =>
      simp only [string_to_image_format] at hres
      split_ifs at hres with h1 h2
      · simp only [Except.ok.injEq] at hres
        exact Or.inl hres.symm
      · simp only [Except.ok.injEq] at hres
        exact Or.inr hres.symm
    | none =>
      cases hg : infer_format buf (some p) with
      | jpeg =>
        rw [hg] at hres
        simp only [validate_new_image_format, Except.ok.injEq] at hres
        exact Or.inl hres.symm
      | png =>
        rw [hg] at hres
        simp only [validate_new_image_format, Except.ok.injEq] at hres
        exact Or.inr hres.symm
      | gif =>
        rw [hg] at hres
        simp only [validate_new_image_format] at hres
        exact Except.noConfusion hres

theorem determine_extension_cases (p : RustPath) :
    (determine_extension p .jpeg = "jpg" ∨ determine_extension p .jpeg = "jpeg") ∧
    determine_extension p .png = "png" := by
  constructor
  · unfold determine_extension
    split
    · rename_i e heq
      split_ifs with h
      · tauto
      · exact Or.inl rfl
    · exact Or.inl rfl
  · unfold determine_extension
    split
    · rename_i e heq
      rw [if_neg]
      · rfl
      · intro hcon
        exact ImageFormat.noConfusion hcon.2
    · rfl

/-- C6 fails on the code: on an output path with no file name the
returned path is unchanged, so an explicit `png` yields the pair
`(PNG, "")` whose path has no extension at all — neither
extension-consistent nor extended with the canonical extension
(`Path::with_extension` is a no-op on a path without a file name). -/
theorem c6_counterexample :
    determine_save_format_and_path ⟨10, 10, []⟩ emptyPath (some "png")
      = .ok (.png, emptyPath) ∧ RustPath.ext emptyPath = none := by decide

/-- C6 amended: for every output path that ends in a proper file name,
a successful resolution returns an extension-consistent pair — the
returned path carries extension `jpg`/`jpeg` exactly when the format is
JPEG and `png` exactly when it is PNG — and when the input path has no
extension the canonical extension of the resolved format is appended. -/
theorem c6_amended_extension_consistent (buf : RasterBuffer) (p : RustPath)
    (of : Option String) (f : ImageFormat) (q : RustPath)
    (hp : hasGoodFileName p = true)
    (h : determine_save_format_and_path buf p of = .ok (f, q)) :
    (∃ e, q.ext = some e ∧ (f = .jpeg ↔ (e = "jpg" ∨ e = "jpeg")) ∧
      (f = .png ↔ e = "png")) ∧
    (p.ext = none → q = p.withExt (canonicalExt f)) := by
  obtain ⟨hf, rfl⟩ := dsfp_ok_shape buf p of f q h
  constructor
  · refine ⟨determine_extension p f, ?_, ?_, ?_⟩
    · apply withExt_ext p _ hp
      · rcases hf with rfl | rfl
        · rcases (determine_extension_cases p).1 with h1 | h1 <;> rw [h1] <;> decide
        · rw [(determine_extension_cases p).2]
          decide
      · rcases hf with rfl | rfl
        · rcases (determine_extension_cases p).1 with h1 | h1 <;> rw [h1] <;> decide
        · rw [(determine_extension_cases p).2]
          decide
    · rcases hf with rfl | rfl
      · rcases (determine_extension_cases p).1 with h1 | h1 <;> rw [h1] <;> decide
      · rw [(determine_extension_cases p).2]
        decide
    · rcases hf with rfl | rfl
      · rcases (determine_extension_cases p).1 with h1 | h1 <;> rw [h1] <;> decide
      · rw [(determine_extension_cases p).2]
        decide
  · intro hnone
    have hd : determine_extension p f = canonicalExt f := by
      simp only [determine_extension, hnone]
    rw [hd]

/-- Witness for the amended C6 on output path `out` with explicit
format `png`. -/
theorem c6_witness :
    hasGoodFileName ⟨false, ["out"]⟩ = true ∧
    determine_save_format_and_path ⟨10, 10, []⟩ ⟨false, ["out"]⟩ (some "png")
      = .ok (.png, ⟨false, ["out.png"]⟩) ∧
    ((∃ e, RustPath.ext (RustPath.withExt ⟨false, ["out"]⟩
        (determine_extension ⟨false, ["out"]⟩ .png)) = some e ∧
        (ImageFormat.png = .jpeg ↔ (e = "jpg" ∨ e = "jpeg")) ∧
        (ImageFormat.png = .png ↔ e = "png")) ∧
      (RustPath.ext ⟨false, ["out"]⟩ = none →
        RustPath.withExt ⟨false, ["out"]⟩ (determine_extension ⟨false, ["out"]⟩ .png)
          = RustPath.withExt ⟨false, ["out"]⟩ (canonicalExt .png))) :=
  ⟨by decide, by decide,
    c6_amended_extension_consistent ⟨10, 10, []⟩ ⟨false, ["out"]⟩ (some "png") .png
      (RustPath.withExt ⟨false, ["out"]⟩ (determine_extension ⟨false, ["out"]⟩ .png))
      (by decide) (by decide)⟩

/-- C7 fails on the code: an absolute user output path without an
extension is not used verbatim — the input path extension is appended
(`/a/b/photo.jpg` with user output `/tmp/out` yields `/tmp/out.jpg`,
not `/tmp/out`). -/
theorem c7_counterexample :
    determine_output_path (fun _ => true) ⟨true, ["a", "b", "photo.jpg"]⟩
        (some ⟨true, ["tmp", "out"]⟩) = .ok ⟨true, ["tmp", "out.jpg"]⟩ ∧
    (⟨true, ["tmp", "out.jpg"]⟩ : RustPath) ≠ ⟨true, ["tmp", "out"]⟩ := by decide

/-- C7 amended: for a valid user output path that carries one of the
accepted extensions (and whose file name has a single extension, which
Rust `set_extension` rebuilds verbatim): an absolute path is used
verbatim, and a relative path is joined onto the input file parent
directory, not the working directory.  A user path without an extension
first gets the input path extension appended (see the counterexample),
which is the only deviation from the claim. -/
theorem c7_amended_path_resolution (isDir : RustPath → Bool)
    (input userOut : RustPath) (e : String)
    (hext : userOut.ext = some e) (he : e = "jpeg" ∨ e = "jpg" ∨ e = "png")
    (hstem : stemSimple userOut = true)
    (hdir : isDir userOut.parentOr = true ∨ userOut.parentOr = emptyPath) :
    (userOut.absolute = true →
      determine_output_path isDir input (some userOut) = .ok userOut) ∧
    (userOut.absolute = false →
      determine_output_path isDir input (some userOut)
        = .ok (input.parentOr.join userOut)) := by
  have hv := validate_reconstruct isDir userOut e hext he hstem hdir
  constructor
  · intro ha
    simp only [determine_output_path, hv, hext, ha, if_true]
  · intro ha
    simp only [determine_output_path, hv, hext, ha, Bool.false_eq_true, if_false]

/-- Witness for the amended C7: input `/a/b/photo.jpg` with relative
user output `out.png` resolves to `/a/b/out.png`. -/
theorem c7_witness :
    RustPath.ext ⟨false, ["out.png"]⟩ = some "png" ∧
    stemSimple ⟨false, ["out.png"]⟩ = true ∧
    determine_output_path (fun _ => true) ⟨true, ["a", "b", "photo.jpg"]⟩
        (some ⟨false, ["out.png"]⟩)
      = .ok ((RustPath.parentOr ⟨true, ["a", "b", "photo.jpg"]⟩).join
          ⟨false, ["out.png"]⟩) ∧
    (RustPath.parentOr ⟨true, ["a", "b", "photo.jpg"]⟩).join ⟨false, ["out.png"]⟩
      = ⟨true, ["a", "b", "out.png"]⟩ :=
  ⟨by decide, by decide,
    (c7_amended_path_resolution (fun _ => true) ⟨true, ["a", "b", "photo.jpg"]⟩
      ⟨false, ["out.png"]⟩ "png" (by decide) (Or.inr (Or.inr rfl)) (by decide)
      (Or.inl rfl)).2 rfl,
    by decide⟩

/-- C8: output-path validation rejects any present, nonempty trailing
extension other than `jpeg`/`jpg`/`png` with the invalid-extension
error, and accepts a path with no extension (the directory check is
assumed to pass, since it runs first). -/
theorem c8_invalid_extension_rejected (isDir : RustPath → Bool) (p : RustPath)
    (hdir : isDir p.parentOr = true ∨ p.parentOr = emptyPath) :
    (∀ e, p.ext = some e →
      ¬ (e = "jpeg" ∨ e = "jpg" ∨ e = "png" ∨ e = "") →
      validate_output_path isDir p
        = .error "You need to specify a valid extension, either jpeg, png or no extension.") ∧
    (p.ext = none → ∃ q, validate_output_path isDir p = .ok q) := by
  have hd : ¬ (¬ isDir p.parentOr = true ∧ ¬ p.parentOr = emptyPath) := by tauto
  constructor
  · intro e hext hbad
    simp only [validate_output_path, if_neg hd, hext, Option.getD_some]
    rw [if_neg hbad]
  · intro hext
    simp only [validate_output_path, if_neg hd, hext, Option.getD_none]
    rw [if_pos (Or.inr (Or.inr (Or.inr trivial)))]
    exact ⟨_, rfl⟩

/-- Witness for C8: `out.gif` is rejected with the invalid-extension
error; `out` (no extension) is accepted. -/
theorem c8_witness :
    RustPath.ext ⟨false, ["out.gif"]⟩ = some "gif" ∧
    ¬ ("gif" = "jpeg" ∨ "gif" = "jpg" ∨ "gif" = "png" ∨ "gif" = "") ∧
    validate_output_path (fun _ => true) ⟨false, ["out.gif"]⟩
      = .error "You need to specify a valid extension, either jpeg, png or no extension." ∧
    (∃ q, validate_output_path (fun _ => true) ⟨false, ["out"]⟩ = .ok q) :=
  ⟨by decide, by decide,
    (c8_invalid_extension_rejected (fun _ => true) ⟨false, ["out.gif"]⟩
      (Or.inl rfl)).1 "gif" (by decide) (by decide),
    (c8_invalid_extension_rejected (fun _ => true) ⟨false, ["out"]⟩
      (Or.inl rfl)).2 (by decide)⟩

/-- C9: the overwrite gate succeeds immediately without prompting when
the path does not exist; when it exists the operator is prompted and
any answer whose trimmed, lowercased form differs from `y` yields the
cancellation error; an error while checking existence yields the
path-check error without prompting. -/
theorem c9_overwrite_gate (answer msg : String) :
    check_if_path_exists .missing answer = ⟨false, .ok ()⟩ ∧
    (¬ rustToLowercase (rustTrim answer) = "y" →
      check_if_path_exists .found answer
        = ⟨true, .error "already exists. Operation cancelled!"⟩) ∧
    (rustToLowercase (rustTrim answer) = "y" →
      check_if_path_exists .found answer = ⟨true, .ok ()⟩) ∧
    check_if_path_exists (.checkFailed msg) answer
      = ⟨false, .error ("Error checking path: " ++ msg)⟩ := by
  refine ⟨rfl, ?_, ?_, rfl⟩
  · intro h
    simp only [check_if_path_exists, if_pos h]
  · intro h
    simp only [check_if_path_exists]
    rw [if_neg (not_not_intro h)]

/-- Witness for C9 at the answer ` N` (a decline) and a disk error. -/
theorem c9_witness :
    (¬ rustToLowercase (rustTrim " N\n") = "y") ∧
    check_if_path_exists .missing " N\n" = ⟨false, .ok ()⟩ ∧
    check_if_path_exists .found " N\n"
      = ⟨true, .error "already exists. Operation cancelled!"⟩ :=
  ⟨by decide, (c9_overwrite_gate " N\n" "disk error").1,
    (c9_overwrite_gate " N\n" "disk error").2.1 (by decide)⟩

/-- C10: a nonempty RGBA buffer saved to an extension-compatible path
succeeds: for JPEG the buffer is converted to RGB before encoding, for
any other format it is encoded unchanged, and the returned `ImageInfo`
carries exactly the buffer dimensions, the requested format, and the
output path. -/
theorem c10_save_payload (buf : RasterBuffer) (p : RustPath) (f : ImageFormat)
    (e : String) (hw : ¬ buf.width = 0) (hh : ¬ buf.height = 0)
    (hext : p.ext = some e) (hfmt : string_to_image_format e = .ok f) :
    save_image buf p f
      = .ok (⟨buf.width, buf.height, f, p⟩,
          if f = .jpeg then .rgb (rgbaToRgb buf.data) else .rgba buf.data) := by
  simp only [save_image, hext, hfmt]
  rw [if_neg (by tauto)]
  rw [if_neg (show ¬ f ≠ f from not_not_intro rfl)]
  cases f <;> rfl

/-- Witness for C10 on a 2 x 1 buffer saved as JPEG to `x.jpg`. -/
theorem c10_witness :
    (¬ (2 : ℕ) = 0) ∧ RustPath.ext ⟨false, ["x.jpg"]⟩ = some "jpg" ∧
    string_to_image_format "jpg" = .ok .jpeg ∧
    save_image ⟨2, 1, [9, 8, 7, 6, 5, 4, 3, 2]⟩ ⟨false, ["x.jpg"]⟩ .jpeg
      = .ok (⟨2, 1, .jpeg, ⟨false, ["x.jpg"]⟩⟩,
          if ImageFormat.jpeg = .jpeg
          then .rgb (rgbaToRgb [9, 8, 7, 6, 5, 4, 3, 2])
          else .rgba [9, 8, 7, 6, 5, 4, 3, 2]) :=
  ⟨by decide, by decide, by decide,
    c10_save_payload ⟨2, 1, [9, 8, 7, 6, 5, 4, 3, 2]⟩ ⟨false, ["x.jpg"]⟩ .jpeg "jpg"
      (by decide) (by decide) (by decide) (by decide)⟩
